import Mathlib

/-!
Shallow embedding of the entity-matching and stop-synthesis pipeline of
tree_trails_prospect_park.py, together with theorems settling the frozen
claims about its specification.

Modelling conventions:
* Python strings become Lean `String`; character-level operations are
  implemented over `List Char` so every definition is structurally
  recursive and kernel-computable.
* Python dictionaries with string keys become insertion-ordered
  association lists (`List (String × α)`), matching CPython dict order.
* Python code that can raise an exception (IndexError, KeyError,
  NameError, ValueError, min of an empty sequence) is modelled with
  `Option`: `none` means the run aborts at that point.
-/

namespace TreeTrails

/-- Whether the first list is an initial segment of the second. -/
def takesPre : List Char → List Char → Bool
  | [], _ => true
  | _ :: _, [] => false
  | a :: as, b :: bs => a == b && takesPre as bs

/-- Python `needle in hay` on strings: substring occurrence test. -/
def hasSubChars (pat : List Char) : List Char → Bool
  | [] => takesPre pat []
  | l@(_ :: rest) => takesPre pat l || hasSubChars pat rest

/-- Python `pat in hay` for strings. -/
def hasSubStr (hay pat : String) : Bool :=
  hasSubChars pat.data hay.data

/-- Python `s.endswith(suffix)`. -/
def strEndsWith (s suffix : String) : Bool :=
  takesPre suffix.data.reverse s.data.reverse

/-- Python `s.lower()` (ASCII data in this pipeline). -/
def strLower (s : String) : String :=
  String.mk (s.data.map Char.toLower)

/-- Fuel-driven worker for `strReplace`; fuel is the input length, and every
step consumes at least one character, so the fuel never runs out on the
actual call. -/
def replCharsAux (pat rep : List Char) : Nat → List Char → List Char
  | 0, l => l
  | n + 1, l =>
    match l with
    | [] => []
    | c :: rest =>
      if pat ≠ [] ∧ takesPre pat l then
        rep ++ replCharsAux pat rep n (l.drop pat.length)
      else
        c :: replCharsAux pat rep n rest

/-- Python `s.replace(pat, rep)`: replace every non-overlapping occurrence,
left to right.  (For the empty pattern — never used by the program — this
model is the identity.) -/
def strReplace (s pat rep : String) : String :=
  String.mk (replCharsAux pat.data rep.data s.data.length s.data)

/-- Python `s.strip()`: remove leading and trailing whitespace. -/
def strTrim (s : String) : String :=
  String.mk (((s.data.dropWhile Char.isWhitespace).reverse.dropWhile Char.isWhitespace).reverse)

/-- Python `s[0:n]` (take the first n characters). -/
def strTake (s : String) (n : Nat) : String :=
  String.mk (s.data.take n)

/-- Fuel-driven splitter for `strSplitOn`; the accumulator holds the
current piece reversed. -/
def splitChars (sep : List Char) : Nat → List Char → List Char → List (List Char)
  | 0, acc, l => [acc.reverse ++ l]
  | n + 1, acc, l =>
    match l with
    | [] => [acc.reverse]
    | c :: rest =>
      if takesPre sep l then acc.reverse :: splitChars sep n [] (l.drop sep.length)
      else splitChars sep n (c :: acc) rest

/-- Python `s.split(sep)` for a nonempty separator (the program never
splits on an empty separator). -/
def strSplitOn (s sep : String) : List String :=
  if sep.data.isEmpty then [s]
  else (splitChars sep.data (s.data.length + 1) [] s.data).map String.mk

/-- Python `s.capitalize()`: first character uppercased, the rest lowercased. -/
def pyCapitalize (s : String) : String :=
  match s.data with
  | [] => ""
  | c :: rest => String.mk (c.toUpper :: rest.map Char.toLower)

/-- One step of Python `s.title()`: the boolean records whether the previous
character was alphabetic. -/
def pyTitleAux : List Char → Bool → List Char
  | [], _ => []
  | c :: rest, prev =>
    if c.isAlpha then
      (if prev then c.toLower else c.toUpper) :: pyTitleAux rest true
    else
      c :: pyTitleAux rest false

/-- Python `s.title()`: start of every alphabetic run uppercased, the rest of
the run lowercased. -/
def pyTitle (s : String) : String :=
  String.mk (pyTitleAux s.data false)

/-- The apostrophe character, kept out of string literals. -/
def apoChar : Char := Char.ofNat 39

/-- The string "<apostrophe>S". -/
def apoS : String := String.mk [apoChar, 'S']

/-- The string "<apostrophe>s". -/
def apoLowerS : String := String.mk [apoChar, 's']

/-- The non-breaking-space character `\xa0`. -/
def nbspChar : Char := Char.ofNat 160

/-- The curly-quote normalisation used by the merger:
`text.title().replace(<apostrophe>S, <apostrophe>s)`. -/
def titleNorm (s : String) : String :=
  strReplace (pyTitle s) apoS apoLowerS

/-- Worker for the `re.sub('\n\n+', '\n\n', ...)` collapse: the counter is
the number of newlines already emitted in the current run. -/
def collapseNL : List Char → Nat → List Char
  | [], _ => []
  | c :: rest, n =>
    if c = '\n' then
      if n ≥ 2 then collapseNL rest (n + 1)
      else '\n' :: collapseNL rest (n + 1)
    else c :: collapseNL rest 0

/-- Worker for the `re.sub(' +', ' ', ...)` collapse: the boolean records
whether the previous character was a space. -/
def collapseSpAux : List Char → Bool → List Char
  | [], _ => []
  | c :: rest, prev =>
    if c = ' ' then
      (if prev then collapseSpAux rest true else ' ' :: collapseSpAux rest true)
    else c :: collapseSpAux rest false

/-- `lineBreaks` from the source: strip `\xa0`, strip leading newlines, and
collapse runs of two-or-more newlines to exactly two. -/
def lineBreaks (text : String) : String :=
  let t1 := strReplace text (String.mk [nbspChar]) ""
  let t2 := t1.data.dropWhile (· = '\n')
  String.mk (collapseNL t2 0)

/-- Helper for the non-greedy `<.*?>` tag regex of `stripMarkup`: from the
position after a `<`, find the next `>` not preceded by a newline and return
the remainder, or `none` when the regex cannot match here. -/
def findGt : List Char → Option (List Char)
  | [] => none
  | c :: rest =>
    if c = '>' then some rest
    else if c = '\n' then none
    else findGt rest

/-- Fuel-driven removal of `<...>` tags (Python `re.sub('<.*?>', '', text)`,
where `.` does not match a newline). -/
def stripTagsAux : Nat → List Char → List Char
  | 0, l => l
  | n + 1, l =>
    match l with
    | [] => []
    | c :: rest =>
      if c = '<' then
        match findGt rest with
        | some rest2 => stripTagsAux n rest2
        | none => c :: stripTagsAux n rest
      else c :: stripTagsAux n rest

/-- `stripMarkup` from the source: drop `**` and `_` markers, then remove
HTML tags. -/
def stripMarkup (text : String) : String :=
  let t := strReplace (strReplace text "**" "") "_" ""
  String.mk (stripTagsAux t.data.length t.data)

/-- `pluralize` from the source.  Note that Python `text.replace('y','ies')`
replaces every `y`, not only a trailing one. -/
def pluralize (text : String) : String :=
  if strEndsWith text "y" then strReplace text "y" "ies"
  else if strEndsWith text "ch" || strEndsWith text "s" || strEndsWith text "sh"
       || strEndsWith text "z" || strEndsWith text "x" then
    text ++ "es"
  else text ++ "s"

/-- A tree-species record (the fields of the `tree_species` dicts that the
core pipeline reads).  An absent `common_names`/`alt_species` key behaves
like an empty list everywhere the core reads it, so both are plain lists. -/
structure TreeSpecies where
  name : String
  wikidata : Option String := none
  common_names : List String := []
  alt_species : List String := []
  id : String := ""
  inaturalist : Option String := none
  wikipedia : Option String := none
  wp_commons : Option String := none
deriving DecidableEq

/-- A manual name-addition entry from `addtl_names`: exactly one of a
`common_name` or an `alt_species` value, keyed by Wikidata id. -/
inductive NameAdd where
  | common (wikidata : String) (name : String)
  | alt (wikidata : String) (name : String)
deriving DecidableEq

/-- One pass of the inner loop of the `addtl_names` block: apply one
addition entry to one record.  Note the source line
`t['alt_species'] = [a['alt_species']]` overwrites rather than appends. -/
def applyAddOne (a : NameAdd) (t : TreeSpecies) : TreeSpecies :=
  match t.wikidata with
  | none => t
  | some w =>
    match a with
    | .common aw c => if aw = w then { t with common_names := t.common_names ++ [c] } else t
    | .alt aw s => if aw = w then { t with alt_species := [s] } else t

/-- The `addtl_names` double loop: outer over addition entries, inner over
the species list. -/
def addtl_names_apply (adds : List NameAdd) (l : List TreeSpecies) : List TreeSpecies :=
  adds.foldl (fun acc a => acc.map (applyAddOne a)) l

/-- A manual removal entry from `remove_name`: keyed by Wikidata id, with
either a common name to strip or a species name whose record is dropped. -/
structure RemoveEntry where
  wikidata : String
  common_name : Option String := none
  species : Option String := none
deriving DecidableEq

/-- The common-name-stripping part of the `remove_name` loop applied to one
record. -/
def applyRemoveNames (removes : List RemoveEntry) (t : TreeSpecies) : TreeSpecies :=
  removes.foldl
    (fun t r =>
      if t.wikidata = some r.wikidata then
        match r.common_name with
        | some c => { t with common_names := t.common_names.filter (· ≠ c) }
        | none => t
      else t) t

/-- Whether a record is marked for deletion by a species-name removal rule
(the `entity_remove` index list). -/
def entityRemoveHit (removes : List RemoveEntry) (t : TreeSpecies) : Bool :=
  removes.any (fun r => t.wikidata == some r.wikidata && r.species == some t.name)

/-- The full `remove_name` block: strip common names, then drop records
whose canonical name matched a removal rule. -/
def remove_name_apply (removes : List RemoveEntry) (l : List TreeSpecies) : List TreeSpecies :=
  (l.map (applyRemoveNames removes)).filter (fun t => !(entityRemoveHit removes t))

/-- Program order of the override blocks: the `addtl_names` loop runs
first, the `remove_name` loop strictly after it. -/
def name_overrides (adds : List NameAdd) (removes : List RemoveEntry)
    (l : List TreeSpecies) : List TreeSpecies :=
  remove_name_apply removes (addtl_names_apply adds l)

/-- A token constraint of a SpaCy pattern: a `LOWER` match or a literal
`ORTH` token. -/
inductive TokenPat where
  | lower (s : String)
  | orth (s : String)
deriving DecidableEq

/-- One entry of the patterns file: label, owning species id, and the token
constraint sequence. -/
structure TermItem where
  label : String
  id : String
  pattern : List TokenPat
deriving DecidableEq

/-- `tokenHyphen` from the source: a hyphenated word becomes prefix /
literal hyphen / suffix constraints (only the first two hyphen-split
tokens are used, as in the source). -/
def tokenHyphen (text : String) : List TokenPat :=
  match strSplitOn text "-" with
  | t0 :: t1 :: _ => [.lower (strLower t0), .orth "-", .lower (strLower t1)]
  | _ => []

/-- The per-word constraints of the singular common-name pattern
(`term.split(' ')`, hyphen-aware). -/
def commonPats (toks : List String) : List TokenPat :=
  toks.foldl
    (fun acc s =>
      acc ++ (if s.data.contains '-' then tokenHyphen s else [.lower (strLower s)])) []

/-- The per-word constraints of the pluralised common-name pattern
(`term.split()`): every word but the last as in the singular form, the
last word pluralised as a single LOWER constraint. -/
def pluralPats : List String → List TokenPat
  | [] => []
  | [s] => [.lower (pluralize (strLower s))]
  | s :: rest =>
    (if s.data.contains '-' then tokenHyphen s else [.lower (strLower s)]) ++ pluralPats rest

/-- `constructTerm` from the source.  When `term` is empty (or a species
term starts with a space) the Python function raises — the local
`patterns` list is only initialised under `if term != ''`, so the
pattern-building loops hit an unbound variable (or `s[0]` on an empty
first token); this is modelled by `none`.  An unknown label returns the
empty list (the source's `listitem = None` branch still returns
`termlist`, which is `[]`). -/
def constructTerm (term label id : String) : Option (List TermItem) :=
  if label = "TREE SPECIES" ∨ label = "ALT TREE SPECIES" then
    if term = "" then none
    else
      match strSplitOn term " " with
      | [] => none
      | s0 :: srest =>
        if s0 = "" then none
        else
          some [⟨label, id, (s0 :: srest).map (fun s => .lower (strLower s))⟩,
                ⟨label, id, .lower (strLower (strTake s0 1) ++ ".")
                  :: srest.map (fun s => .lower (strLower s))⟩]
  else if label = "TREE COMMON NAME" then
    if term = "" then none
    else
      some [⟨label, id, commonPats (strSplitOn term " ")⟩,
            ⟨label, id, pluralPats ((strSplitOn term " ").filter (· ≠ ""))⟩]
  else some []

/-- Sequential fold in the `Option` monad, written out so that all
unfolding lemmas are definitional. -/
def optFold {α β : Type} (f : β → α → Option β) : β → List α → Option β
  | b, [] => some b
  | b, a :: as =>
    match f b a with
    | none => none
    | some b2 => optFold f b2 as

/-- Accumulate `constructTerm` over a list of terms with a fixed label,
aborting on the first failure (a Python exception aborts the whole
script). -/
def constructTermsFor (label id : String) (terms : List String) : Option (List TermItem) :=
  optFold
    (fun acc c =>
      match constructTerm c label id with
      | none => none
      | some items => some (acc ++ items)) [] terms

/-- The pattern-file construction loop (`termlist` build): assign each
record its Wikidata id or an auto-incrementing `x<n>` fallback id, then
build species, common-name and alternate-species patterns. -/
def termlist_build (tree_species : List TreeSpecies) : Option (List TermItem) :=
  (optFold
    (fun (st : List TermItem × Nat) t =>
      let id := match t.wikidata with | some w => w | none => "x" ++ toString st.2
      match constructTerm t.name "TREE SPECIES" id with
      | none => none
      | some base =>
        match constructTermsFor "TREE COMMON NAME" id t.common_names with
        | none => none
        | some commons =>
          match constructTermsFor "ALT TREE SPECIES" id t.alt_species with
          | none => none
          | some alts =>
            some (st.1 ++ base ++ commons ++ alts,
                  match t.wikidata with | some _ => st.2 | none => st.2 + 1))
    ([], 1) tree_species).map (·.1)

/-- A recognised mention span.  Matcher output always carries a
`start_char`; the species entries synthesised inside the merger do not,
hence `Option Nat`.  (`end_char` is never read downstream and is
omitted.) -/
structure Ent where
  text : String
  start_char : Option Nat
  label : String
  id : String
deriving DecidableEq

/-- The per-paragraph merged-entities dictionary: species id → mention
list, in insertion order. -/
abbrev MentMap := List (String × List Ent)

/-- Python `key in merged_ents`. -/
def alContains (m : MentMap) (k : String) : Bool :=
  m.any (fun p => p.1 == k)

/-- Python `merged_ents[k].append(e)` / `.extend(es)` on an existing key. -/
def alAppend (m : MentMap) (k : String) (es : List Ent) : MentMap :=
  m.map (fun p => if p.1 = k then (p.1, p.2 ++ es) else p)

/-- Python `merged_ents[k] = v`: replace in place when the key exists,
append otherwise. -/
def alSet (m : MentMap) (k : String) (v : List Ent) : MentMap :=
  if alContains m k then m.map (fun p => if p.1 = k then (p.1, v) else p)
  else m ++ [(k, v)]

/-- `getCommonBySpeciesId` from the source: collect the common names of
every record whose id matches.  (The Python body reads the enclosing
`ent['id']` instead of its parameter, but it is only ever called with that
same value, so the parameterised form is behaviourally identical.) -/
def getCommonBySpeciesId (id : String) (tree_species : List TreeSpecies) : List String :=
  tree_species.foldl (fun acc ts => if ts.id = id then acc ++ ts.common_names else acc) []

/-- First merger pass: every `TREE SPECIES` mention seeds (or extends) the
group keyed by its id. -/
def pass1Step (merged : MentMap) (e : Ent) : MentMap :=
  if e.label = "TREE SPECIES" then
    if alContains merged e.id = false then alSet merged e.id [e]
    else alAppend merged e.id [e]
  else merged

/-- One paragraph mention considered by the cross-reference search of the
second merger pass: for a species-labelled mention (while no match has
been found yet), compare the common-name mention against the dictionary
common names of that species, and on a hit insert the synthesised pair
into the merged map under the species mention's id.  The state is the
current `(common, merged_ents)` pair.  Note the synthesised species entry
stores `ent['label']` — the literal string `TREE SPECIES` — as its text,
exactly as the source does. -/
def crossRefStep (e : Ent) (tree_species : List TreeSpecies)
    (st : List Ent × MentMap) (ent : Ent) : List Ent × MentMap :=
  if ent.label = "TREE SPECIES" ∧ st.1.length = 0 then
    (getCommonBySpeciesId ent.id tree_species).foldl
      (fun st2 c =>
        if titleNorm e.text = pluralize (titleNorm c) ∨ titleNorm e.text = titleNorm c then
          let common : List Ent :=
            [⟨e.text, e.start_char, "TREE COMMON NAME", ent.id⟩,
             ⟨ent.label, none, "TREE SPECIES", ent.id⟩]
          (common,
           if alContains st2.2 ent.id then alAppend st2.2 ent.id common
           else alSet st2.2 ent.id common)
        else st2) st
  else st

/-- The cross-reference loop of the second merger pass over the whole
paragraph mention list. -/
def crossRef (e : Ent) (paraEnts : List Ent) (tree_species : List TreeSpecies)
    (merged : MentMap) : List Ent × MentMap :=
  paraEnts.foldl (crossRefStep e tree_species) ([], merged)

/-- The fallback direct dictionary lookup of the second merger pass: scan
`tree_species` for the mention's own id and synthesise a species/common
pair (the last matching record wins; no match leaves the empty list, the
source's `species = {}`). -/
def fallbackSpecies (e : Ent) (tree_species : List TreeSpecies) : List Ent :=
  tree_species.foldl
    (fun acc t =>
      if e.id = t.id then
        [⟨t.name, none, "TREE SPECIES", e.id⟩,
         ⟨e.text, e.start_char, "TREE COMMON NAME", e.id⟩]
      else acc) []

/-- Second merger pass, one mention: a `TREE COMMON NAME` mention is
appended to an existing group for its id; a single-word mention without
such a group is dropped; a multi-word mention without such a group goes
through the cross-reference search and then the direct dictionary
fallback. -/
def pass2Step (paraEnts : List Ent) (tree_species : List TreeSpecies)
    (merged : MentMap) (e : Ent) : MentMap :=
  if e.label = "TREE COMMON NAME" then
    if e.text.data.contains ' ' = false then
      if alContains merged e.id then alAppend merged e.id [e] else merged
    else if alContains merged e.id then alAppend merged e.id [e]
    else
      let st := crossRef e paraEnts tree_species merged
      if st.1.length = 0 then alSet st.2 e.id (fallbackSpecies e tree_species) else st.2
  else merged

/-- `merged_ents` of one paragraph: the species-seeding pass followed by
the common-name pass, both in original text order. -/
def merged_ents (paraEnts : List Ent) (tree_species : List TreeSpecies) : MentMap :=
  paraEnts.foldl (fun m e => pass2Step paraEnts tree_species m e)
    (paraEnts.foldl pass1Step [])

/-- A sentence with its character offsets. -/
structure Sent where
  text : String
  start_char : Nat
  end_char : Nat
deriving DecidableEq

/-- A paragraph as consumed by the stop synthesizer: its sentences and its
merged-entities map (already computed by the merger). -/
structure Paragraph where
  sents : List Sent
  merged : MentMap
deriving DecidableEq

/-- A tour stop record. -/
structure Stop where
  title : String
  leadIn : String
  excerpt : String
  tour : String
  species : Option String
  sequence : Nat
deriving DecidableEq

/-- `joinSents` from the source: join sentence texts with single spaces and
collapse runs of spaces. -/
def joinSents (sents : List Sent) : String :=
  String.mk (collapseSpAux (String.intercalate " " (sents.map (·.text))).data false)

/-- `bold` with the default `memento` formatting. -/
def bold (text : String) : String :=
  "<b>" ++ text ++ "</b>"

/-- `italic` with the default `memento` formatting and default colour. -/
def italic (text : String) : String :=
  "<i style=\"color: rgb(156, 39, 176);\">" ++ text ++ "</i>"

/-- First-occurrence deduplication, the model of Python `list(set(xs))`
(whose iteration order is an implementation detail; the spec itself calls
the pick "arbitrary-but-deterministic"). -/
def dedupFirstAux (seen : List String) : List String → List String
  | [] => []
  | x :: xs =>
    if seen.contains x then dedupFirstAux seen xs
    else x :: dedupFirstAux (x :: seen) xs

/-- First-occurrence deduplication of a string list. -/
def dedupFirst (l : List String) : List String :=
  dedupFirstAux [] l

/-- `createTitle` from the source.  The scan collects common-name texts and
resolves the species name (the dictionary scan runs for every mention,
last match winning).  When the group has neither a common name nor a
resolvable species the Python local `title` is never assigned and the
function raises `UnboundLocalError`, modelled as `none`. -/
def createTitle (merged_ent : List Ent) (tree_species : List TreeSpecies) : Option String :=
  let st := merged_ent.foldl
    (fun (st : Option String × List String) m =>
      (tree_species.foldl (fun sp t => if m.id = t.id then some t.name else sp) st.1,
       if m.label = "TREE COMMON NAME" then st.2 ++ [m.text] else st.2))
    (none, [])
  match dedupFirst st.2 with
  | c :: _ =>
    some (match st.1 with
      | some sp => pyCapitalize c ++ " (" ++ pyCapitalize sp ++ ")"
      | none => pyCapitalize c)
  | [] => st.1.map pyCapitalize

/-- `createExcerpt` from the source: collect the distinct mention texts per
label (insertion order), join and normalise the paragraph text, then wrap
species/alt-species texts in bold+italic markup and common-name texts in
italic markup by whole-string replacement. -/
def createExcerpt (paragraph : Paragraph) (merged_ent : List Ent) : String :=
  let u_ents : List (String × List String) := merged_ent.foldl
    (fun u m =>
      if u.any (fun kv => kv.1 == m.label) then
        u.map (fun kv =>
          if kv.1 = m.label then
            (kv.1, if kv.2.contains m.text then kv.2 else kv.2 ++ [m.text])
          else kv)
      else u ++ [(m.label, [m.text])]) []
  let excerpt := lineBreaks (joinSents paragraph.sents)
  u_ents.foldl
    (fun ex kv =>
      if kv.1 = "TREE SPECIES" ∨ kv.1 = "ALT TREE SPECIES" then
        kv.2.foldl (fun ex2 t => strReplace ex2 t (bold (italic t))) ex
      else if kv.1 = "TREE COMMON NAME" then
        kv.2.foldl (fun ex2 t => strReplace ex2 t (italic t)) ex
      else ex) excerpt

/-- `getSpecies` from the source: resolve the canonical species name from
the group's `TREE SPECIES` mentions (last dictionary match wins). -/
def getSpecies (merged_ent : List Ent) (tree_species : List TreeSpecies) : Option String :=
  merged_ent.foldl
    (fun sp m =>
      if m.label = "TREE SPECIES" then
        tree_species.foldl (fun sp2 t => if m.id = t.id then some t.name else sp2) sp
      else sp) none

/-- `createLeadIn` from the source: first 35 characters of the paragraph's
first sentence, newlines replaced by spaces, outer whitespace stripped,
plus an ellipsis.  An empty sentence list would raise in Python
(`p['sents'][0]`), modelled as `none`. -/
def createLeadIn (p : Paragraph) : Option String :=
  p.sents.head?.map (fun s0 => strTake (strTrim (strReplace s0.text "\n" " ")) 35 ++ "...")

/-- `createStop` from the source (the `tour` field is set by the caller,
`sequence` at the end of the pipeline). -/
def createStop (paragraph : Paragraph) (merged_ent : List Ent)
    (tree_species : List TreeSpecies) : Option Stop :=
  match createTitle merged_ent tree_species, createLeadIn paragraph with
  | some ttl, some li =>
    some { title := ttl, leadIn := li,
           excerpt := createExcerpt paragraph merged_ent,
           tour := "", species := getSpecies merged_ent tree_species, sequence := 0 }
  | _, _ => none

/-- One element of the ordering list built from a paragraph's merged map:
group id, earliest mention offset, and the group itself. -/
structure MEnt where
  id : String
  earliest_start_char : Nat
  ents : List Ent
deriving DecidableEq

/-- The sort key order of the synthesizer (`sorted(..., key=earliest)`). -/
def mentLE (a b : MEnt) : Prop :=
  a.earliest_start_char ≤ b.earliest_start_char

instance : DecidableRel mentLE := fun _ _ => Nat.decLe _ _

instance : IsTotal MEnt mentLE := ⟨fun _ _ => Nat.le_total _ _⟩

instance : IsTrans MEnt mentLE := ⟨fun _ _ _ => Nat.le_trans⟩

/-- Build the pre-sort group list: skip empty groups, and compute
`min(d['start_char'] for d in v if 'start_char' in d)` — a nonempty group
with no offset-bearing mention makes Python's `min` raise `ValueError`
(modelled as `none`). -/
def buildMEnts : MentMap → Option (List MEnt)
  | [] => some []
  | kv :: rest =>
    if 0 < kv.2.length then
      match kv.2.filterMap (·.start_char) with
      | [] => none
      | o :: os =>
        (buildMEnts rest).map (fun l => ⟨kv.1, os.foldl min o, kv.2⟩ :: l)
    else buildMEnts rest

/-- `ordered_ents` from the source: the group list sorted ascending by
earliest offset.  Python's `sorted` is stable; `List.insertionSort` with a
≤-relation places earlier-inserted elements first among equal keys, the
same stable order. -/
def ordered_ents (merged : MentMap) : Option (List MEnt) :=
  (buildMEnts merged).map (List.insertionSort mentLE)

/-- The backward `while stops[prev_stop]['lead-in'] == stops[-1]['lead-in']`
walk, acting on the stop list in reverse order starting at Python index
`-2`.  Running off the front of the list while still matching corresponds
to Python evaluating a negative index past `-len`, an `IndexError`
(`none`). -/
def walkRev (f : Stop → Stop) (lead : String) : List Stop → Option (List Stop)
  | [] => none
  | s :: rest =>
    if s.leadIn = lead then (walkRev f lead rest).map (fun r => f s :: r)
    else some (s :: rest)

/-- `appendNoEntPara` from the source: append the paragraph text to the
last stop's excerpt and, when there is more than one stop, to every
preceding stop sharing the last stop's lead-in.  An empty stop list would
raise on `stops[-1]` (`none`). -/
def appendNoEntPara (stops : List Stop) (p : Paragraph) : Option (List Stop) :=
  let p_text := "\n\n" ++ joinSents p.sents
  match stops.reverse with
  | [] => none
  | lastS :: tl =>
    let lastS2 := { lastS with excerpt := lineBreaks (lastS.excerpt ++ p_text) }
    match tl with
    | [] => some [lastS2]
    | _ :: _ =>
      (walkRev (fun t => { t with excerpt := lineBreaks (t.excerpt ++ p_text) })
          lastS.leadIn tl).map
        (fun tl2 => (lastS2 :: tl2).reverse)

/-- Python `text.split(sep)[1]` (total via a default that the guarded call
sites never hit). -/
def partAfter (text sep : String) : String :=
  ((strSplitOn text sep).drop 1).headD ""

/-- Python `text.split(sep)[0]`. -/
def partUpTo (text sep : String) : String :=
  (strSplitOn text sep).headD ""

/-- One paragraph of the tour-processing loop.  The state carries the stop
list plus the current value of the Python loop variable `k`: the inner
`for k, v in p['merged_ents'].items()` loop shadows the tour key, so a
later `TOUR`-header stop is titled with whatever `k` last held.  A
paragraph with no merged entities and no `TOUR` marker is appended to the
previous stop(s) (only when stops exist); a `TOUR` paragraph emits a
header stop after pushing the (source-bugged, always empty) pre-marker
text back; otherwise one stop per ordered merged group is created. -/
def processTourPara (tree_species : List TreeSpecies) (tour : String)
    (st : List Stop × String) (p : Paragraph) : Option (List Stop × String) :=
  let stops := st.1
  let kv := st.2
  if p.merged.length = 0 then
    if hasSubStr (joinSents p.sents) "TOUR" = false then
      if 0 < stops.length then
        (appendNoEntPara stops p).map (fun s => (s, kv))
      else some (stops, kv)
    else
      let p_text := joinSents p.sents
      let p_text2 := "TOUR" ++ partAfter p_text "TOUR"
      let to_prev : Paragraph := ⟨[⟨partUpTo p_text2 "TOUR", 0, 0⟩], []⟩
      (appendNoEntPara stops to_prev).map
        (fun stops1 =>
          (stops1 ++
            [{ title := "TOUR " ++ kv,
               leadIn := lineBreaks (strTake p_text2 35 ++ "..."),
               excerpt := lineBreaks p_text2,
               tour := "TOUR " ++ tour, species := none, sequence := 0 }], kv))
  else
    match ordered_ents p.merged with
    | none => none
    | some os =>
      (optFold
        (fun acc o =>
          match createStop p o.ents tree_species with
          | none => none
          | some s => some (acc ++ [{ s with tour := "TOUR " ++ tour }])) stops os).map
        (fun stops2 => (stops2, ((p.merged.getLast?.map (·.1)).getD kv)))

/-- One tour section of the tour-processing loop (the `k` loop variable is
re-bound to the tour key at the start of each section). -/
def processTour (tree_species : List TreeSpecies) (tourKey : String)
    (stops : List Stop) (paras : List Paragraph) : Option (List Stop) :=
  (optFold (processTourPara tree_species tourKey) (stops, tourKey) paras).map (·.1)

/-- The tour-sections loop (front and back matter are hand-assembled
outside this loop and do not interact with the claims modelled here). -/
def processTours (tree_species : List TreeSpecies)
    (tours : List (String × List Paragraph)) : Option (List Stop) :=
  optFold (fun stops kt => processTour tree_species kt.1 stops kt.2) [] tours

/-- A curated deletion entry (`pp-tree-trails_deletes.json`). -/
structure DeleteEntry where
  leadIn : String
  species : Option String
deriving DecidableEq

/-- Whether a stop matches some deletion entry (exact lead-in and species
match). -/
def delMatch (deletes : List DeleteEntry) (s : Stop) : Bool :=
  deletes.any (fun d => s.leadIn == d.leadIn && s.species == d.species)

/-- The curation filter loop.  The accumulator is the growing
`final_stops` list in reverse order (most recent survivor first).  A
non-matching stop is kept.  For a matching stop the source evaluates
`final_stops[-1]` (IndexError when empty — `none`) and, only when its
lead-in differs, `stops[i+1]` (IndexError when the deleted stop is last —
`none`); when both lead-ins differ, the deleted stop's markup-stripped
excerpt is appended to the last survivor and, if there is more than one
survivor, walked backward across survivors sharing its lead-in. -/
def finalStopsAux (deletes : List DeleteEntry) : List Stop → List Stop → Option (List Stop)
  | racc, [] => some racc
  | racc, s :: r =>
    if delMatch deletes s = false then finalStopsAux deletes (s :: racc) r
    else
      match racc with
      | [] => none
      | lastA :: tl =>
        if lastA.leadIn = s.leadIn then finalStopsAux deletes (lastA :: tl) r
        else
          match r with
          | [] => none
          | nxt :: r2 =>
            if nxt.leadIn = s.leadIn then finalStopsAux deletes (lastA :: tl) (nxt :: r2)
            else
              let txt := "\n" ++ stripMarkup s.excerpt
              let lastA2 := { lastA with excerpt := lastA.excerpt ++ txt }
              match tl with
              | [] => finalStopsAux deletes [lastA2] (nxt :: r2)
              | _ :: _ =>
                match walkRev (fun t => { t with excerpt := t.excerpt ++ txt })
                    lastA.leadIn tl with
                | none => none
                | some tl2 => finalStopsAux deletes (lastA2 :: tl2) (nxt :: r2)

/-- The `final_stops` curation filter over the full stop list. -/
def final_stops (stops : List Stop) (deletes : List DeleteEntry) : Option (List Stop) :=
  (finalStopsAux deletes [] stops).map List.reverse

/-- Assign sequence numbers 1..N in final order. -/
def addSeq (stops : List Stop) : List Stop :=
  (stops.foldl (fun (st : List Stop × Nat) s => (st.1 ++ [{ s with sequence := st.2 }], st.2 + 1))
    ([], 1)).1

/-- A row of the stop export CSV. -/
structure StopRow where
  name : String
  description : String
  excerpt : String
  tree_species : Option String
  tour : String
  sequence : Nat
deriving DecidableEq

/-- `writeStopsToCsv`, one row. -/
def stopRow (s : Stop) : StopRow :=
  ⟨s.title, s.leadIn, s.excerpt, s.species, s.tour, s.sequence⟩

/-- A row of the species export CSV. -/
structure SpeciesRow where
  species : String
  commonNames : String
  images : Option String
  wikipedia : Option String
  wpCommons : Option String
  inaturalist : Option String
deriving DecidableEq

/-- `writeSpeciesToCsv`, one row. -/
def speciesRow (ts : TreeSpecies) : SpeciesRow :=
  ⟨ts.name, String.intercalate ", " ts.common_names,
   ts.inaturalist.map (fun u => u ++ "/browse_photos"),
   ts.wikipedia, ts.wp_commons, ts.inaturalist⟩

/-- Whether a species id occurs as a key of some paragraph's merged map. -/
def tsReferenced (ts : TreeSpecies) (sections : List (List Paragraph)) : Bool :=
  sections.any (fun sec => sec.any (fun p => p.merged.any (fun kv => ts.id == kv.1)))

/-- The `final_tree_species` reduction: keep every record whose id appears
as a key of some paragraph's merged-entities map.  (The source walks all
sections with an `in_final` flag that appends each record at most once —
i.e. a filter, in dictionary order.) -/
def final_tree_species (tree_species : List TreeSpecies)
    (sections : List (List Paragraph)) : List TreeSpecies :=
  tree_species.filter (fun ts => tsReferenced ts sections)

/-- The tail of the pipeline: synthesize tour stops, apply the curation
filter, assign sequence numbers, and emit both export tables.  A Python
exception anywhere aborts the script before any table is written
(`none`). -/
def runExports (tree_species : List TreeSpecies)
    (tours : List (String × List Paragraph)) (deletes : List DeleteEntry) :
    Option (List StopRow × List SpeciesRow) :=
  match processTours tree_species tours with
  | none => none
  | some stops =>
    match final_stops stops deletes with
    | none => none
    | some fs =>
      some ((addSeq fs).map stopRow,
            (final_tree_species tree_species (tours.map (·.2))).map speciesRow)

/-- The merger invariant: every mention stored under a species-id key
carries that id as its own owning id. -/
def keyOwned (m : MentMap) : Prop :=
  ∀ kv ∈ m, ∀ e ∈ kv.2, e.id = kv.1

/-! ### Concrete scenario data used by the claim theorems and witnesses -/

/-- A one-record dictionary: Quercus alba / Q1 (no common names). -/
def C1ts : List TreeSpecies := [{ name := "Quercus alba", wikidata := some "Q1", id := "Q1" }]

/-- A multi-word common-name mention with no species co-mention. -/
def C1cm : Ent := ⟨"white oak", some 5, "TREE COMMON NAME", "Q1"⟩

/-- A species mention seeding a group. -/
def C1spW : Ent := ⟨"Qa", some 0, "TREE SPECIES", "Q1"⟩

/-- A single-word common-name mention for the seeded group. -/
def C1cmW : Ent := ⟨"oak", some 9, "TREE COMMON NAME", "Q1"⟩

/-- A species mention whose id is absent from the dictionary. -/
def C2ent : Ent := ⟨"Fx", some 0, "TREE SPECIES", "QZ"⟩

/-- A paragraph whose single merged group resolves neither a species name
nor a common name against an empty dictionary. -/
def C2para : Paragraph := ⟨[⟨"S t.", 0, 4⟩], [("QZ", [C2ent])]⟩

/-- Species record Q1 for the export scenario. -/
def C3ts1 : TreeSpecies := { name := "Oak a", wikidata := some "Q1", id := "Q1" }

/-- Species record Q2 for the export scenario. -/
def C3ts2 : TreeSpecies := { name := "Elm b", wikidata := some "Q2", id := "Q2" }

/-- Mention of Q1 in the shared paragraph. -/
def C3e1 : Ent := ⟨"Oak a", some 10, "TREE SPECIES", "Q1"⟩

/-- Mention of Q2 in the shared paragraph. -/
def C3e2 : Ent := ⟨"Elm b", some 50, "TREE SPECIES", "Q2"⟩

/-- One paragraph carrying merged groups for both Q1 and Q2. -/
def C3para : Paragraph := ⟨[⟨"A b.", 0, 4⟩], [("Q1", [C3e1]), ("Q2", [C3e2])]⟩

/-- The single tour section of the export scenario. -/
def C3tours : List (String × List Paragraph) := [("1", [C3para])]

/-- Delete the Elm b stop (its lead-in is the 35-character prefix plus the
ellipsis marker). -/
def C3dels : List DeleteEntry := [⟨"A b....", some "Elm b"⟩]

/-- Curation scenario: a surviving stop with its own lead-in. -/
def C4P : Stop := ⟨"P", "W", "Pb", "TOUR 1", some "p", 0⟩

/-- Curation scenario: first deleted stop of lead-in X. -/
def C4A : Stop := ⟨"A", "X", "AXTEXT", "TOUR 1", some "a", 0⟩

/-- Curation scenario: second deleted stop of lead-in X. -/
def C4B : Stop := ⟨"B", "X", "BX", "TOUR 1", some "b", 0⟩

/-- Curation scenario: trailing surviving stop. -/
def C4Q : Stop := ⟨"Q", "Z", "Qx", "TOUR 1", some "q", 0⟩

/-- Delete both stops with lead-in X. -/
def C4dels : List DeleteEntry := [⟨"X", some "a"⟩, ⟨"X", some "b"⟩]

/-- Witness scenario: the survivor sharing the deleted stop's lead-in. -/
def C4wP : Stop := ⟨"P", "X", "pw", "TOUR 1", some "p", 0⟩

/-- Witness scenario: the deleted stop. -/
def C4wA : Stop := ⟨"A", "X", "aw", "TOUR 1", some "a", 0⟩

/-- Witness scenario: delete only stop A. -/
def C4wdel : List DeleteEntry := [⟨"X", some "a"⟩]

/-- A record carrying a Wikidata id and no alternate spellings. -/
def C5t : TreeSpecies := { name := "Ug", wikidata := some "Q1" }

/-- Two alternate-spelling additions for the same record. -/
def C5adds : List NameAdd := [.alt "Q1" "Uc a", .alt "Q1" "Uc b"]

/-- A well-formed dictionary entry. -/
def C7good : TreeSpecies := { name := "Quercus alba", wikidata := some "Q1" }

/-- A dictionary entry with an empty canonical name. -/
def C7empty : TreeSpecies := { name := "", wikidata := some "Q9" }

/-- A nonempty merged group none of whose mentions carries an offset,
next to an ordinary group. -/
def C8bad : MentMap :=
  [("Q1", [⟨"x", none, "TREE SPECIES", "Q1"⟩]),
   ("Q2", [⟨"y", some 3, "TREE SPECIES", "Q2"⟩])]

/-- A paragraph carrying the offset-free group. -/
def C8badPara : Paragraph := ⟨[⟨"A.", 0, 2⟩], C8bad⟩

/-- Ordering-scenario mention with the later offset. -/
def C8me1 : Ent := ⟨"y", some 7, "TREE SPECIES", "Q2"⟩

/-- Ordering-scenario mention with the earlier offset. -/
def C8me2 : Ent := ⟨"x", some 3, "TREE SPECIES", "Q1"⟩

/-- A merged map whose insertion order disagrees with offset order. -/
def C8m : MentMap := [("Q2", [C8me1]), ("Q1", [C8me2])]

/-- The expected ordered group list for `C8m`. -/
def C8l : List MEnt := [⟨"Q1", 3, [C8me2]⟩, ⟨"Q2", 7, [C8me1]⟩]

/-- A lone species mention for the merger-invariant witness. -/
def C9e : Ent := ⟨"Qa", some 0, "TREE SPECIES", "Q1"⟩

/-- Boundary scenario: surviving first stop. -/
def C10A : Stop := ⟨"A", "X", "ax", "TOUR 1", some "a", 0⟩

/-- Boundary scenario: deleted final stop, sharing A's lead-in. -/
def C10B : Stop := ⟨"B", "X", "bx", "TOUR 1", some "b", 0⟩

/-- Delete the final stop. -/
def C10dels : List DeleteEntry := [⟨"X", some "b"⟩]

/-- Witness scenario: a survivor with a different lead-in. -/
def C10wP : Stop := ⟨"P", "W", "pw", "TOUR 1", some "p", 0⟩

/-! ### Shared helper lemmas -/

/-- A fold in the `Option` monad fails whenever the list holds an element
on which the step function fails from every state. -/
theorem optFold_none {α β : Type} (f : β → α → Option β) (x : α)
    (hx : ∀ b, f b x = none) :
    ∀ (l : List α) (b : β), x ∈ l → optFold f b l = none := by
  intro l
  induction l with
  | nil => intro b hb; cases hb
  | cons a as ih =>
    intro b hb
    cases hfa : f b a with
    | none => simp [optFold, hfa]
    | some b2 =>
      simp only [optFold, hfa]
      rcases List.mem_cons.mp hb with h | h
      · subst h; rw [hx b] at hfa; cases hfa
      · exact ih b2 h

/-- A property preserved by every fold step holds of the fold. -/
theorem foldl_preserve {α β : Type} (P : β → Prop) (f : β → α → β)
    (h : ∀ b a, P b → P (f b a)) :
    ∀ (l : List α) (b : β), P b → P (l.foldl f b) := by
  intro l
  induction l with
  | nil => intro b hb; simpa using hb
  | cons a as ih => intro b hb; simpa using ih (f b a) (h b a hb)

/-- The empty merged map satisfies the key-ownership invariant. -/
theorem keyOwned_nil : keyOwned [] := by
  intro kv h; cases h

/-- `alAppend` preserves key ownership when the appended mentions carry the
target key as their id. -/
theorem keyOwned_alAppend {m : MentMap} {k : String} {es : List Ent}
    (hm : keyOwned m) (hes : ∀ e ∈ es, e.id = k) :
    keyOwned (alAppend m k es) := by
  intro kv hkv e he
  rcases List.mem_map.mp hkv with ⟨p, hp, hpe⟩
  by_cases hk : p.1 = k
  · rw [if_pos hk] at hpe
    subst hpe
    rcases List.mem_append.mp he with h | h
    · exact hm p hp e h
    · rw [hes e h]; exact hk.symm
  · rw [if_neg hk] at hpe; subst hpe; exact hm p hp e he

/-- `alSet` preserves key ownership when the new value's mentions carry the
target key as their id. -/
theorem keyOwned_alSet {m : MentMap} {k : String} {v : List Ent}
    (hm : keyOwned m) (hv : ∀ e ∈ v, e.id = k) :
    keyOwned (alSet m k v) := by
  intro kv hkv e he
  unfold alSet at hkv
  by_cases hc : alContains m k
  · rw [if_pos hc] at hkv
    rcases List.mem_map.mp hkv with ⟨p, hp, hpe⟩
    by_cases hk : p.1 = k
    · rw [if_pos hk] at hpe
      subst hpe
      rw [hv e he]; exact hk.symm
    · rw [if_neg hk] at hpe; subst hpe; exact hm p hp e he
  · rw [if_neg hc] at hkv
    rcases List.mem_append.mp hkv with h | h
    · exact hm kv h e he
    · have : kv = (k, v) := by simpa using h
      subst this
      exact hv e he

/-- The first merger pass preserves key ownership. -/
theorem keyOwned_pass1Step {m : MentMap} (e : Ent) (hm : keyOwned m) :
    keyOwned (pass1Step m e) := by
  unfold pass1Step
  split
  · split
    · exact keyOwned_alSet hm (by intro x hx; simp at hx; subst hx; rfl)
    · exact keyOwned_alAppend hm (by intro x hx; simp at hx; subst hx; rfl)
  · exact hm

/-- One step of the cross-reference search preserves key ownership of the
merged-map component. -/
theorem keyOwned_crossRefStep {e : Ent} {ts : List TreeSpecies}
    (st : List Ent × MentMap) (ent : Ent) (h : keyOwned st.2) :
    keyOwned (crossRefStep e ts st ent).2 := by
  unfold crossRefStep
  split
  · refine foldl_preserve (fun st2 : List Ent × MentMap => keyOwned st2.2) _ ?_
      (getCommonBySpeciesId ent.id ts) st h
    intro st2 c hst2
    dsimp only
    split
    · have hc : ∀ x ∈ [(⟨e.text, e.start_char, "TREE COMMON NAME", ent.id⟩ : Ent),
          ⟨ent.label, none, "TREE SPECIES", ent.id⟩], x.id = ent.id := by
        intro x hx
        rcases List.mem_cons.mp hx with h1 | h1
        · subst h1; rfl
        · simp at h1; subst h1; rfl
      by_cases hal : alContains st2.2 ent.id
      · simpa [hal] using keyOwned_alAppend hst2 hc
      · simpa [hal] using keyOwned_alSet hst2 hc
    · exact hst2
  · exact h

/-- Every mention synthesised by the fallback lookup carries the
common-name mention's own id. -/
theorem fallbackSpecies_id (e : Ent) (ts : List TreeSpecies) :
    ∀ x ∈ fallbackSpecies e ts, x.id = e.id := by
  unfold fallbackSpecies
  refine foldl_preserve (fun acc : List Ent => ∀ x ∈ acc, x.id = e.id) _ ?_ ts [] ?_
  · intro acc t hacc
    dsimp only
    split
    · intro x hx
      rcases List.mem_cons.mp hx with h1 | h1
      · subst h1; rfl
      · simp at h1; subst h1; rfl
    · exact hacc
  · intro x hx; cases hx

/-- The second merger pass preserves key ownership. -/
theorem keyOwned_pass2Step {paraEnts : List Ent} {ts : List TreeSpecies} {m : MentMap}
    (e : Ent) (hm : keyOwned m) :
    keyOwned (pass2Step paraEnts ts m e) := by
  have hsingle : ∀ x ∈ [e], x.id = e.id := by
    intro x hx; simp at hx; subst hx; rfl
  have hcr : keyOwned (crossRef e paraEnts ts m).2 := by
    unfold crossRef
    exact foldl_preserve (fun st2 : List Ent × MentMap => keyOwned st2.2) _
      (fun st ent h => keyOwned_crossRefStep st ent h) paraEnts ([], m) hm
  unfold pass2Step
  split
  · split
    · split
      · exact keyOwned_alAppend hm hsingle
      · exact hm
    · split
      · exact keyOwned_alAppend hm hsingle
      · dsimp only
        split
        · exact keyOwned_alSet hcr (fallbackSpecies_id e ts)
        · exact hcr
  · exact hm

/-- `createStop` fails whenever `createTitle` does. -/
theorem createStop_none {p : Paragraph} {me : List Ent} {ts : List TreeSpecies}
    (h : createTitle me ts = none) : createStop p me ts = none := by
  unfold createStop
  rw [h]

/-- A merged map with a nonempty ordered-group list is itself nonempty. -/
theorem merged_ne_of_ordered {merged : MentMap} {os : List MEnt} {o : MEnt}
    (h : ordered_ents merged = some os) (ho : o ∈ os) :
    ¬ merged.length = 0 := by
  intro hlen
  have hm : merged = [] := List.length_eq_zero.mp hlen
  subst hm
  have : os = ([] : List MEnt) := by
    simpa [ordered_ents, buildMEnts, List.insertionSort] using h.symm
  subst this
  cases ho

/-- Elements of a successful backward walk are original elements or their
updates. -/
theorem walkRev_mem {f : Stop → Stop} {lead : String} :
    ∀ {tl tl2 : List Stop}, walkRev f lead tl = some tl2 →
      ∀ y ∈ tl2, ∃ x ∈ tl, y = x ∨ y = f x := by
  intro tl
  induction tl with
  | nil => intro tl2 h; cases h
  | cons s rest ih =>
    intro tl2 h y hy
    by_cases hs : s.leadIn = lead
    · rw [walkRev, if_pos hs] at h
      cases hr : walkRev f lead rest with
      | none => rw [hr] at h; cases h
      | some r2 =>
        rw [hr] at h
        simp only [Option.map_some'] at h
        cases h
        rcases List.mem_cons.mp hy with h1 | h1
        · exact ⟨s, List.mem_cons_self s rest, Or.inr h1⟩
        · obtain ⟨x, hx, hx2⟩ := ih hr y h1
          exact ⟨x, List.mem_cons_of_mem s hx, hx2⟩
    · rw [walkRev, if_neg hs] at h
      cases h
      exact ⟨y, hy, Or.inl rfl⟩

/-- Updating a stop's excerpt does not change whether it matches a
deletion entry. -/
theorem delMatch_set_excerpt (deletes : List DeleteEntry) (s : Stop) (x : String) :
    delMatch deletes { s with excerpt := x } = delMatch deletes s := rfl

/-- Every stop in a successful run of the curation fold matches no
deletion entry, provided the accumulated survivors do not. -/
theorem finalStopsAux_noMatch (deletes : List DeleteEntry) :
    ∀ (rest racc fs : List Stop),
      (∀ f ∈ racc, delMatch deletes f = false) →
      finalStopsAux deletes racc rest = some fs →
      ∀ f ∈ fs, delMatch deletes f = false := by
  intro rest
  induction rest with
  | nil =>
    intro racc fs hacc h
    unfold finalStopsAux at h
    cases h
    exact hacc
  | cons s r ih =>
    intro racc fs hacc h
    unfold finalStopsAux at h
    by_cases hm : delMatch deletes s = false
    · rw [if_pos hm] at h
      refine ih (s :: racc) fs ?_ h
      intro f hf
      rcases List.mem_cons.mp hf with h1 | h1
      · subst h1; exact hm
      · exact hacc f h1
    · rw [if_neg hm] at h
      cases racc with
      | nil => simp only [] at h; cases h
      | cons lastA tl =>
        simp only [] at h
        by_cases hl : lastA.leadIn = s.leadIn
        · rw [if_pos hl] at h
          exact ih (lastA :: tl) fs hacc h
        · rw [if_neg hl] at h
          cases r with
          | nil => simp only [] at h; cases h
          | cons nxt r2 =>
            simp only [] at h
            by_cases hn : nxt.leadIn = s.leadIn
            · rw [if_pos hn] at h
              exact ih (lastA :: tl) fs hacc h
            · rw [if_neg hn] at h
              have hlastA : delMatch deletes lastA = false :=
                hacc lastA (List.mem_cons_self lastA tl)
              have htl : ∀ f ∈ tl, delMatch deletes f = false := by
                intro f hf; exact hacc f (List.mem_cons_of_mem lastA hf)
              cases tl with
              | nil =>
                simp only [] at h
                refine ih _ fs ?_ h
                intro f hf
                simp at hf
                subst hf
                rw [delMatch_set_excerpt]
                exact hlastA
              | cons t1 tlr =>
                simp only [] at h
                cases hw : walkRev (fun t => { t with excerpt :=
                    t.excerpt ++ ("\n" ++ stripMarkup s.excerpt) }) lastA.leadIn (t1 :: tlr) with
                | none => rw [hw] at h; cases h
                | some tl2 =>
                  rw [hw] at h
                  refine ih _ fs ?_ h
                  intro f hf
                  rcases List.mem_cons.mp hf with h1 | h1
                  · subst h1; rw [delMatch_set_excerpt]; exact hlastA
                  · obtain ⟨x, hx, hx2⟩ := walkRev_mem hw f h1
                    rcases hx2 with h2 | h2
                    · rw [h2]; exact htl x hx
                    · rw [h2, delMatch_set_excerpt]; exact htl x hx

/-- The length of a successful pre-sort group build equals the number of
nonempty groups. -/
theorem buildMEnts_length :
    ∀ (merged : MentMap) (b : List MEnt), buildMEnts merged = some b →
      b.length = merged.countP (fun kv => decide (0 < kv.2.length)) := by
  intro merged
  induction merged with
  | nil =>
    intro b h
    simp only [buildMEnts] at h
    cases h
    rfl
  | cons kv rest ih =>
    intro b h
    simp only [buildMEnts] at h
    by_cases hk : 0 < kv.2.length
    · rw [if_pos hk] at h
      cases hf : kv.2.filterMap (·.start_char) with
      | nil => rw [hf] at h; cases h
      | cons o os =>
        rw [hf] at h
        cases hb : buildMEnts rest with
        | none => rw [hb] at h; cases h
        | some l =>
          rw [hb] at h
          simp only [Option.map_some'] at h
          cases h
          simp [List.countP_cons, hk, ih l hb]
    · rw [if_neg hk] at h
      rw [List.countP_cons]
      simp [hk]
      exact ih b h

/-! ### Claim theorems -/

/-- C1, counterexample: the claim says a multi-word `COMMON_NAME` mention
with no existing group for its id is dropped from the merged groups.  On
the code, the multi-word mention "white oak" (it contains a space, and the
first pass produces no group at all) is not dropped: the merger resolves
it through the fallback dictionary lookup and stores it, together with a
synthesised species entry, under its own id. -/
theorem C1_counterexample :
    C1cm.text.data.contains ' ' = true ∧
    ([C1cm].foldl pass1Step []) = ([] : MentMap) ∧
    merged_ents [C1cm] C1ts =
      [("Q1", [⟨"Quercus alba", none, "TREE SPECIES", "Q1"⟩,
               ⟨"white oak", some 5, "TREE COMMON NAME", "Q1"⟩])] := by
  decide

/-- C1, amended: in the second merger pass, a `COMMON_NAME` mention whose
id already has a group is appended to that group; otherwise, if the
mention text is a single word (contains no space), it is dropped; otherwise
(multi-word, no existing group) it is resolved by the cross-reference
search over the paragraph's `SPECIES`-labeled ids, with a fallback direct
lookup of the mention's own id in the species dictionary. -/
theorem C1_amended :
    (∀ (paraEnts : List Ent) (ts : List TreeSpecies) (merged : MentMap) (e : Ent),
        e.label = "TREE COMMON NAME" → alContains merged e.id = true →
        pass2Step paraEnts ts merged e = alAppend merged e.id [e]) ∧
    (∀ (paraEnts : List Ent) (ts : List TreeSpecies) (merged : MentMap) (e : Ent),
        e.label = "TREE COMMON NAME" → e.text.data.contains ' ' = false →
        alContains merged e.id = false →
        pass2Step paraEnts ts merged e = merged) ∧
    (∀ (paraEnts : List Ent) (ts : List TreeSpecies) (merged : MentMap) (e : Ent),
        e.label = "TREE COMMON NAME" → e.text.data.contains ' ' = true →
        alContains merged e.id = false →
        pass2Step paraEnts ts merged e =
          (if (crossRef e paraEnts ts merged).1.length = 0 then
            alSet (crossRef e paraEnts ts merged).2 e.id (fallbackSpecies e ts)
          else (crossRef e paraEnts ts merged).2)) := by
  refine ⟨?_, ?_, ?_⟩
  · intro paraEnts ts merged e hl hc
    unfold pass2Step
    rw [if_pos hl]
    by_cases hs : e.text.data.contains ' ' = false
    · rw [if_pos hs, if_pos hc]
    · rw [if_neg hs, if_pos hc]
  · intro paraEnts ts merged e hl hs hc
    unfold pass2Step
    rw [if_pos hl, if_pos hs, if_neg (by simp [hc])]
  · intro paraEnts ts merged e hl hs hc
    unfold pass2Step
    rw [if_pos hl, if_neg (by rw [hs]; decide), if_neg (by simp [hc])]

/-- C1, witness: a single-word common-name mention whose id already has a
group is appended to that group. -/
theorem C1_witness :
    pass2Step [] [] [("Q1", [C1spW])] C1cmW = alAppend [("Q1", [C1spW])] "Q1" [C1cmW] :=
  C1_amended.1 [] [] [("Q1", [C1spW])] C1cmW rfl (by decide)

/-- C5, counterexample: the claim says a record matched by several
alternate-spelling additions retains all of them.  On the code, applying
two alternate-spelling additions to a matching record leaves only the
last one: each addition overwrites the `alt_species` list. -/
theorem C5_counterexample :
    (addtl_names_apply C5adds [C5t]).map (·.alt_species) = [["Uc b"]] ∧
    (addtl_names_apply C5adds [C5t]).map (·.alt_species) ≠ [["Uc a", "Uc b"]] := by
  decide

/-- C5, amended: a common-name addition is appended to the matching
record's (possibly empty) common-name list, and several common-name
additions all accumulate; an alternate-spelling addition instead replaces
the record's alternate-spelling list with a singleton, so only the last
matching alternate-spelling addition is retained; removals are applied
strictly after all additions, by exact id-plus-field match. -/
theorem C5_amended (t : TreeSpecies) (w c c2 s : String) (hw : t.wikidata = some w) :
    (applyAddOne (NameAdd.common w c) t).common_names = t.common_names ++ [c] ∧
    (applyAddOne (NameAdd.common w c) t).alt_species = t.alt_species ∧
    (applyAddOne (NameAdd.alt w s) t).alt_species = [s] ∧
    (applyAddOne (NameAdd.alt w s) t).common_names = t.common_names ∧
    (addtl_names_apply [NameAdd.common w c, NameAdd.common w c2] [t]).map (·.common_names)
      = [t.common_names ++ [c] ++ [c2]] ∧
    (∀ (adds : List NameAdd) (removes : List RemoveEntry) (l : List TreeSpecies),
      name_overrides adds removes l = remove_name_apply removes (addtl_names_apply adds l)) := by
  refine ⟨?_, ?_, ?_, ?_, ?_, fun _ _ _ => rfl⟩ <;>
    simp [applyAddOne, addtl_names_apply, hw]

/-- C5, witness: one alternate-spelling addition on a concrete record
replaces its alternate-spelling list with that one spelling. -/
theorem C5_witness :
    (applyAddOne (NameAdd.alt "Q1" "Uc a") C5t).alt_species = ["Uc a"] :=
  (C5_amended C5t "Q1" "x" "y" "Uc a" rfl).2.2.1

/-- C6: the three spec examples hold, but `pluralize` replaces every "y"
(not only a trailing one) because Python `str.replace` is global:
`pluralize "bayberry"` yields "baiesberries" where the claim's rule gives
"bayberries". -/
theorem C6_theorem :
    pluralize "bayberry" = "baiesberries" ∧
    pluralize "oak" = "oaks" ∧
    pluralize "birch" = "birches" ∧
    pluralize "cherry" = "cherries" := by
  decide

/-- C7: an entry with an empty canonical name is not dropped with a
warning — `constructTerm` fails (the Python local `patterns` is unbound),
so building the rule set from an entry list containing an empty-name entry
fails entirely instead of yielding the rules of the remaining entries;
the same entry list without the empty-name entry succeeds. -/
theorem C7_theorem :
    constructTerm "" "TREE SPECIES" "x1" = none ∧
    termlist_build [C7good, C7empty] = none ∧
    (termlist_build [C7good]).isSome = true := by
  decide

/-- C9: after merging, every mention stored in a paragraph's
merged-entities map under species-id key `k` itself carries owning id `k`,
along all insertion paths of both passes. -/
theorem C9_theorem (paraEnts : List Ent) (ts : List TreeSpecies) (k : String)
    (v : List Ent) (hkv : (k, v) ∈ merged_ents paraEnts ts) (e : Ent) (he : e ∈ v) :
    e.id = k := by
  have h1 : keyOwned (paraEnts.foldl pass1Step []) :=
    foldl_preserve keyOwned pass1Step (fun m x h => keyOwned_pass1Step x h)
      paraEnts [] keyOwned_nil
  have h2 : keyOwned (merged_ents paraEnts ts) := by
    unfold merged_ents
    exact foldl_preserve keyOwned (fun m x => pass2Step paraEnts ts m x)
      (fun m x h => keyOwned_pass2Step x h) paraEnts _ h1
  exact h2 (k, v) hkv e he

/-- C9, witness: the invariant applied to a concrete one-mention
paragraph. -/
theorem C9_witness : C9e.id = "Q1" :=
  C9_theorem [C9e] [] "Q1" [C9e] (by decide) C9e (by decide)

/-- C10, counterexample: the claim says the curation filter is total only
under the precondition that no deletion entry matches the final Stop.  On
the code, a deletion entry matches the final stop `C10B`, yet the filter
completes (the most recent survivor shares its lead-in, so the
`stops[i+1]` read is short-circuited). -/
theorem C10_counterexample :
    delMatch C10dels C10B = true ∧
    final_stops [C10A, C10B] C10dels = some [C10A] := by
  decide

/-- C10, amended: when a deletion entry matches a Stop and the survivor
list's most recent entry has a different lead-in, the filter reads the
next element of the original list; if the matched Stop is the last one
that read is past the end and the filter fails (and it also fails when a
matched Stop has no surviving predecessor at all) — but totality does not
require that no deletion entry match the final Stop, since a most recent
survivor sharing the final Stop's lead-in short-circuits the read. -/
theorem C10_amended :
    (∀ (deletes : List DeleteEntry) (lastA : Stop) (tl : List Stop) (s : Stop),
        delMatch deletes s = true → ¬ lastA.leadIn = s.leadIn →
        finalStopsAux deletes (lastA :: tl) [s] = none) ∧
    (∀ (deletes : List DeleteEntry) (s : Stop) (r : List Stop),
        delMatch deletes s = true →
        finalStopsAux deletes [] (s :: r) = none) := by
  constructor
  · intro deletes lastA tl s hm hl
    unfold finalStopsAux
    rw [if_neg (by simp [hm])]
    simp only []
    rw [if_neg hl]
  · intro deletes s r hm
    unfold finalStopsAux
    rw [if_neg (by simp [hm])]

/-- C10, witness: the out-of-range read at the end of the list, on a
concrete state. -/
theorem C10_witness : finalStopsAux C10dels [C10wP] [C10B] = none :=
  C10_amended.1 C10dels C10wP [] C10B (by decide) (by decide)

/-- C4, counterexample: the claim says a deleted Stop that is the sole
remaining stop for its lead-in (no *surviving* prior or following stop
shares it) has its text appended to a survivor, so its narrative text is
never lost.  On the code, stop `C4A` is deleted, no surviving stop shares
its lead-in "X" (the only other "X" stop, `C4B`, is deleted too), yet its
excerpt "AXTEXT" appears in no final stop: the filter checks the
*immediately following original* stop (`stops[i+1]`), which is `C4B` with
the same lead-in, so the text is dropped. -/
theorem C4_counterexample :
    delMatch C4dels C4A = true ∧
    final_stops [C4P, C4A, C4B, C4Q] C4dels =
      some [{ C4P with excerpt := "Pb\nBX" }, C4Q] ∧
    (final_stops [C4P, C4A, C4B, C4Q] C4dels).map
      (fun fs => fs.all (fun s => !(hasSubStr s.excerpt "AXTEXT"))) = some true := by
  decide

/-- C4, amended: every Stop matching a deletion entry is removed from the
final list; a deleted Stop's markup-stripped excerpt is appended to the
most recent surviving stop (and walked backward across survivors sharing
that stop's lead-in) only when both the most recent surviving stop and
the *immediately following stop of the original list* have lead-ins
different from the deleted Stop's; when the immediately following
original stop shares the deleted Stop's lead-in — even if that stop is
itself deleted — the text is dropped. -/
theorem C4_amended :
    (∀ (deletes : List DeleteEntry) (stops fs : List Stop),
        final_stops stops deletes = some fs →
        ∀ f ∈ fs, delMatch deletes f = false) ∧
    (∀ (deletes : List DeleteEntry) (lastA s nxt : Stop) (r2 : List Stop),
        delMatch deletes s = true → ¬ lastA.leadIn = s.leadIn →
        ¬ nxt.leadIn = s.leadIn →
        finalStopsAux deletes [lastA] (s :: nxt :: r2) =
          finalStopsAux deletes
            [{ lastA with excerpt := lastA.excerpt ++ ("\n" ++ stripMarkup s.excerpt) }]
            (nxt :: r2)) ∧
    (∀ (deletes : List DeleteEntry) (lastA s nxt : Stop) (tl r2 : List Stop),
        delMatch deletes s = true → nxt.leadIn = s.leadIn →
        finalStopsAux deletes (lastA :: tl) (s :: nxt :: r2) =
          finalStopsAux deletes (lastA :: tl) (nxt :: r2)) := by
  refine ⟨?_, ?_, ?_⟩
  · intro deletes stops fs h f hf
    unfold final_stops at h
    cases haux : finalStopsAux deletes [] stops with
    | none => rw [haux] at h; cases h
    | some racc =>
      rw [haux] at h
      simp only [Option.map_some'] at h
      cases h
      exact finalStopsAux_noMatch deletes stops [] racc (by intro g hg; cases hg) haux
        f (List.mem_reverse.mp hf)
  · intro deletes lastA s nxt r2 hm hl hn
    rw [finalStopsAux.eq_def]
    simp only []
    rw [if_neg (by simp [hm]), if_neg hl, if_neg hn]
  · intro deletes lastA s nxt tl r2 hm hn
    by_cases hl : lastA.leadIn = s.leadIn
    · rw [finalStopsAux.eq_def]
      simp only []
      rw [if_neg (by simp [hm]), if_pos hl]
    · rw [finalStopsAux.eq_def]
      simp only []
      rw [if_neg (by simp [hm]), if_neg hl, if_pos hn]

/-- C4, witness: the no-match invariant of the final list applied to a
concrete run. -/
theorem C4_witness : delMatch C4wdel C4wP = false :=
  C4_amended.1 C4wdel [C4wP, C4wA] [C4wP] (by decide) C4wP (by decide)

/-- C2, counterexample: the claim says an unresolvable title (no species
and no common name in the merged group) fails only that single Stop, the
pipeline continues, and a completed run still produces both export
tables.  On the code, a single such group aborts the whole run: no export
tables are produced at all. -/
theorem C2_counterexample :
    createTitle [C2ent] [] = none ∧
    runExports [] [("1", [C2para])] [] = none := by
  decide

/-- C2, amended: whenever some merged entity group of a tour paragraph
yields an unresolvable title, the Stop's construction raises an unhandled
error that propagates: the whole tour-stop synthesis returns nothing, and
the run produces no export tables, instead of skipping the single stop
and continuing. -/
theorem C2_amended (ts : List TreeSpecies) (tours : List (String × List Paragraph))
    (kt : String × List Paragraph) (hkt : kt ∈ tours)
    (p : Paragraph) (hp : p ∈ kt.2)
    (os : List MEnt) (hos : ordered_ents p.merged = some os)
    (o : MEnt) (ho : o ∈ os)
    (hbad : createTitle o.ents ts = none) :
    processTours ts tours = none := by
  have hpara : ∀ st, processTourPara ts kt.1 st p = none := by
    intro st
    unfold processTourPara
    rw [if_neg (merged_ne_of_ordered hos ho)]
    rw [hos]
    simp only []
    rw [optFold_none _ o (fun b => by rw [createStop_none hbad]) os st.1 ho]
    rfl
  have htour : ∀ stops, processTour ts kt.1 stops kt.2 = none := by
    intro stops
    unfold processTour
    rw [optFold_none _ p (fun b => hpara b) kt.2 (stops, kt.1) hp]
    rfl
  unfold processTours
  rw [optFold_none _ kt (fun b => htour b) tours [] hkt]

/-- C2, witness: the propagation theorem applied to a concrete tour whose
single paragraph carries an unresolvable group. -/
theorem C2_witness : processTours [] [("1", [C2para])] = none :=
  C2_amended [] [("1", [C2para])] ("1", [C2para]) (by decide) C2para (by decide)
    [⟨"QZ", 0, [C2ent]⟩] (by decide) ⟨"QZ", 0, [C2ent]⟩ (by decide) (by decide)

/-- C3, counterexample: the claim says a species row appears iff some stop
of the final exported list (after curation deletions) links to that
species.  On the code, the paragraph's two groups produce two stops, the
curation filter deletes the Elm b stop, yet the species table still
contains the Elm b row: the reduction reads the pre-curation merged maps,
not the final stop list. -/
theorem C3_counterexample :
    (processTours [C3ts1, C3ts2] C3tours).map
      (fun stops => stops.any (fun s => s.species == some "Elm b")) = some true ∧
    (runExports [C3ts1, C3ts2] C3tours C3dels).map
      (fun pr => pr.2.any (fun r => r.species == "Elm b")
        && pr.1.all (fun r => !(r.tree_species == some "Elm b"))) = some true := by
  decide

/-- C3, amended: a species row appears in the species export iff the
species' id occurs as a key of some paragraph's merged-entities map
(computed before curation); the species table of a completed run is
independent of the deletion list, so species whose only stops were
deleted still receive rows. -/
theorem C3_amended :
    (∀ (A : List TreeSpecies) (S : List (List Paragraph)) (r : SpeciesRow),
        r ∈ (final_tree_species A S).map speciesRow ↔
          ∃ ts, ts ∈ A ∧ tsReferenced ts S = true ∧ r = speciesRow ts) ∧
    (∀ (ts : List TreeSpecies) (tours : List (String × List Paragraph))
        (d1 d2 : List DeleteEntry) (pr1 pr2 : List StopRow × List SpeciesRow),
        runExports ts tours d1 = some pr1 → runExports ts tours d2 = some pr2 →
        pr1.2 = pr2.2) := by
  constructor
  · intro A S r
    simp only [final_tree_species, List.mem_map, List.mem_filter]
    constructor
    · rintro ⟨ts, ⟨hA, href⟩, hr⟩
      exact ⟨ts, hA, href, hr.symm⟩
    · rintro ⟨ts, hA, href, hr⟩
      exact ⟨ts, ⟨hA, href⟩, hr.symm⟩
  · intro ts tours d1 d2 pr1 pr2 h1 h2
    unfold runExports at h1 h2
    cases hpt : processTours ts tours with
    | none => rw [hpt] at h1; cases h1
    | some stops =>
      rw [hpt] at h1 h2
      simp only [] at h1 h2
      cases hf1 : final_stops stops d1 with
      | none => rw [hf1] at h1; cases h1
      | some fs1 =>
        cases hf2 : final_stops stops d2 with
        | none => rw [hf2] at h2; cases h2
        | some fs2 =>
          rw [hf1] at h1
          rw [hf2] at h2
          simp only [] at h1 h2
          cases h1
          cases h2
          rfl

/-- C3, witness: the membership characterisation instantiated on the
concrete scenario dictionary. -/
theorem C3_witness :
    speciesRow C3ts1 ∈ (final_tree_species [C3ts1, C3ts2] [[C3para]]).map speciesRow :=
  (C3_amended.1 [C3ts1, C3ts2] [[C3para]] (speciesRow C3ts1)).mpr
    ⟨C3ts1, by decide, by decide, rfl⟩

/-- C8, counterexample: the claim says a group none of whose mentions
carries a character offset sorts last, synthesis still succeeding.  On
the code, a nonempty offset-free group makes `min` raise on an empty
sequence: ordering fails and the paragraph's synthesis fails with it. -/
theorem C8_counterexample :
    (C8bad.any (fun kv => decide (0 < kv.2.length)
      && kv.2.all (fun e => e.start_char == none))) = true ∧
    ordered_ents C8bad = none ∧
    processTourPara [] "1" ([], "1") C8badPara = none := by
  decide

/-- C8, amended: when ordering succeeds, the group list is sorted
ascending by minimum offset over each group's offset-bearing mentions
(stably, one entry per nonempty group: the output length equals the
number of nonempty groups); a nonempty group with no offset-bearing
mention instead makes the ordering — and the paragraph's synthesis —
fail, rather than sorting last. -/
theorem C8_amended (merged : MentMap) (l : List MEnt)
    (h : ordered_ents merged = some l) :
    List.Sorted mentLE l ∧
    l.length = merged.countP (fun kv => decide (0 < kv.2.length)) := by
  unfold ordered_ents at h
  cases hb : buildMEnts merged with
  | none => rw [hb] at h; cases h
  | some b =>
    rw [hb] at h
    simp only [Option.map_some'] at h
    cases h
    constructor
    · exact List.sorted_insertionSort mentLE b
    · rw [(List.perm_insertionSort mentLE b).length_eq]
      exact buildMEnts_length merged b hb

/-- C8, witness: sortedness and the one-entry-per-nonempty-group count on
a concrete merged map whose insertion order disagrees with offset
order. -/
theorem C8_witness :
    List.Sorted mentLE C8l ∧
    C8l.length = C8m.countP (fun kv => decide (0 < kv.2.length)) :=
  C8_amended C8m C8l (by decide)

end TreeTrails
